import Mathlib

/-!
Verification of the kvbadger transactional key-value adapter (badger.go).

The adapter wraps a badger engine transaction (`badger.Txn`) in a shared
inner handle `txn`, exposed as `Transaction` (read-write) and `Snapshot`
(read-only) via Go struct embedding.  Keys are Go strings compared
bytewise; we model them as byte lists under the lexicographic order
`List.Lex (· < ·)`, which coincides with Go string comparison.  The engine
is an external collaborator; it is modelled explicitly below
(`EngineTxn` and the `engine*` operations) following badger's documented
transaction semantics, while every `txn*` definition is a direct
translation of the corresponding function in badger.go.
-/

namespace Kvbadger

/-- Keys: Go strings as byte lists, ordered bytewise lexicographically. -/
abbrev Key := List Nat

/-- Values: opaque byte payloads, zero length permitted. -/
abbrev Value := List Nat

/-- Errors produced by the external badger engine. -/
inductive EngErr
  | keyNotFound
  | emptyKey
  | discardedTxn
  | readOnlyTxn
  deriving DecidableEq, Repr

/-- Errors surfaced by the adapter layer: `sql.ErrTxDone`, `os.ErrNotExist`,
`os.ErrInvalid`, or an engine error passed through unchanged. -/
inductive KVErr
  | txDone
  | notExist
  | invalid
  | engine (e : EngErr)
  deriving DecidableEq, Repr

/-- Result of a fallible call: a value or an error. -/
inductive Out (ε α : Type)
  | ok (a : α)
  | error (e : ε)
  deriving DecidableEq, Repr

/-- Association-list lookup with decidable key equality. -/
def alookup {α : Type} : List (Key × α) → Key → Option α
  | [], _ => none
  | (k, v) :: ps, q => if k = q then some v else alookup ps q

/-- Model of the external badger engine transaction (`badger.Txn`): a
committed base store, a pending-write overlay for read-write transactions
(`some v` records a set, `none` records a delete), the update (read-write)
flag fixed at creation, a discarded flag, and counters recording how often
the commit/discard engine effects actually fired. -/
structure EngineTxn where
  base : List (Key × Value)
  pending : List (Key × Option Value)
  update : Bool
  discarded : Bool
  commitCount : Nat
  discardCount : Nat
  deriving DecidableEq, Repr

/-- The value visible to an engine transaction for a key, if any: pending
writes of a read-write transaction shadow the base store. -/
def visibleKV (t : EngineTxn) (k : Key) : Option Value :=
  match (if t.update then alookup t.pending k else none) with
  | some w => w
  | none => alookup t.base k

/-- Engine point read (`badger.Txn.Get`): empty keys rejected, discarded
transactions rejected, otherwise the visible value or a not-found error. -/
def engineGet (t : EngineTxn) (k : Key) : Out EngErr Value :=
  if k = [] then .error .emptyKey
  else if t.discarded then .error .discardedTxn
  else
    match visibleKV t k with
    | some v => .ok v
    | none => .error .keyNotFound

/-- Engine write (`badger.Txn.Set`), mirroring badger's modify gate:
read-only transactions rejected first, then discarded ones, then empty
keys; otherwise the pending overlay records the upsert. -/
def engineSet (t : EngineTxn) (k : Key) (v : Value) : Out EngErr EngineTxn :=
  if t.update = false then .error .readOnlyTxn
  else if t.discarded then .error .discardedTxn
  else if k = [] then .error .emptyKey
  else .ok { t with pending := (k, some v) :: t.pending }

/-- Engine delete (`badger.Txn.Delete`): the same modify gate; deleting an
absent key is not an engine error, the overlay just records the removal. -/
def engineDelete (t : EngineTxn) (k : Key) : Out EngErr EngineTxn :=
  if t.update = false then .error .readOnlyTxn
  else if t.discarded then .error .discardedTxn
  else if k = [] then .error .emptyKey
  else .ok { t with pending := (k, none) :: t.pending }

/-- Engine commit (`badger.Txn.Commit`): finalizes the transaction and
counts the commit effect; a discarded transaction cannot commit. -/
def engineCommit (t : EngineTxn) : Out EngErr Unit × EngineTxn :=
  if t.discarded then (.error .discardedTxn, t)
  else (.ok (), { t with discarded := true, commitCount := t.commitCount + 1 })

/-- Engine discard (`badger.Txn.Discard`): idempotent at the engine level;
the first call counts the discard effect. -/
def engineDiscard (t : EngineTxn) : EngineTxn :=
  if t.discarded then t
  else { t with discarded := true, discardCount := t.discardCount + 1 }

/-- The shared inner handle `txn` of badger.go: `done` models `t.db == nil`,
the sentinel the source sets on Commit and discard. -/
structure Txn where
  done : Bool
  tx : EngineTxn
  deriving DecidableEq, Repr

/-- Result of an adapter call that may also crash with a Go runtime panic. -/
inductive Res (α : Type)
  | ok (a : α)
  | err (e : KVErr)
  | crash
  deriving DecidableEq, Repr

/-- The error mapping shared by txn.Get and txn.Delete in badger.go:
`errors.Is(err, badger.ErrKeyNotFound)` becomes `os.ErrNotExist`; every
other engine error is returned unchanged. -/
def mapNotFound (e : EngErr) : KVErr :=
  if e = .keyNotFound then .notExist else .engine e

/-- txn.Get from badger.go: no done-check and no key validation at this
layer; the call is delegated to the engine and only the engine's not-found
error is mapped. -/
def txnGet (t : Txn) (k : Key) : Out KVErr Value :=
  match engineGet t.tx k with
  | .error e => .error (mapNotFound e)
  | .ok v => .ok v

/-- `io.ReadAll` applied to txn.Set's value argument: a nil reader (`none`)
dereferences a nil interface and crashes; otherwise it yields the bytes. -/
def readAll : Option Value → Res Value
  | none => .crash
  | some v => .ok v

/-- txn.Set from badger.go: done-check, read the value stream in full, then
the engine set with its error passed through unchanged. -/
def txnSet (t : Txn) (k : Key) (v : Option Value) : Res Txn :=
  if t.done then .err .txDone
  else
    match readAll v with
    | .crash => .crash
    | .err e => .err e
    | .ok data =>
      match engineSet t.tx k data with
      | .error e => .err (.engine e)
      | .ok tx2 => .ok { t with tx := tx2 }

/-- txn.Delete from badger.go: done-check, engine delete, the engine's
not-found mapped to `os.ErrNotExist`, other errors passed through. -/
def txnDelete (t : Txn) (k : Key) : Out KVErr Txn :=
  if t.done then .error .txDone
  else
    match engineDelete t.tx k with
    | .error e => .error (mapNotFound e)
    | .ok tx2 => .ok { t with tx := tx2 }

/-- txn.Commit from badger.go: a done handle reports `sql.ErrTxDone`;
otherwise the handle becomes done (`t.db = nil`) and the engine commit runs
exactly once, its result returned as is. -/
def txnCommit (t : Txn) : Out KVErr Unit × Txn :=
  if t.done then (.error .txDone, t)
  else
    match engineCommit t.tx with
    | (.error e, tx2) => (.error (.engine e), { done := true, tx := tx2 })
    | (.ok (), tx2) => (.ok (), { done := true, tx := tx2 })

/-- txn.discard from badger.go (behind Transaction.Rollback and
Snapshot.Discard): a done handle reports `sql.ErrTxDone`; otherwise the
handle becomes done, the engine transaction is discarded, and nil is
returned. -/
def txnRollback (t : Txn) : Out KVErr Unit × Txn :=
  if t.done then (.error .txDone, t)
  else (.ok (), { done := true, tx := engineDiscard t.tx })

/-- Transaction wraps the shared inner txn (Go struct embedding); its engine
transaction is opened with update = true. -/
structure Transaction where
  toTxn : Txn
  deriving DecidableEq, Repr

/-- Snapshot wraps the same shared inner txn (Go struct embedding); its
engine transaction is opened with update = false. -/
structure Snapshot where
  toTxn : Txn
  deriving DecidableEq, Repr

/-- Database.NewTransaction over a committed base store. -/
def newTransaction (base : List (Key × Value)) : Transaction :=
  ⟨⟨false, ⟨base, [], true, false, 0, 0⟩⟩⟩

/-- Database.NewSnapshot over a committed base store. -/
def newSnapshot (base : List (Key × Value)) : Snapshot :=
  ⟨⟨false, ⟨base, [], false, false, 0, 0⟩⟩⟩

/-- Go method promotion: Snapshot.Get is the embedded txn's Get. -/
def snapGet (s : Snapshot) (k : Key) : Out KVErr Value := txnGet s.toTxn k

/-- Go method promotion: Snapshot.Set is the embedded txn's Set. -/
def snapSet (s : Snapshot) (k : Key) (v : Option Value) : Res Txn := txnSet s.toTxn k v

/-- Go method promotion: Snapshot.Delete is the embedded txn's Delete. -/
def snapDelete (s : Snapshot) (k : Key) : Out KVErr Txn := txnDelete s.toTxn k

/-- Go method promotion: Snapshot.Commit is the embedded txn's Commit. -/
def snapCommit (s : Snapshot) : Out KVErr Unit × Txn := txnCommit s.toTxn

/-- Forward seek of the engine cursor (`it.Seek` with a forward iterator):
position at the first entry whose key is not below the target, on the
ascending listing of the visible entries. -/
def seekGE (beg : Key) : List (Key × Value) → List (Key × Value)
  | [] => []
  | p :: ps => if p.1 < beg then seekGE beg ps else p :: ps

/-- The yield loop of txn.Ascend: emit entries until a key reaches the
non-empty exclusive upper bound. -/
def ascendLoop (e : Key) : List (Key × Value) → List (Key × Value)
  | [] => []
  | p :: ps => if e ≠ [] ∧ e ≤ p.1 then [] else p :: ascendLoop e ps

/-- txn.Ascend from badger.go, over the cursor's ascending listing `pairs`
of the active handle's visible entries: bound validation, optional forward
seek to `beg`, then the yield loop.  The second component is the
out-of-band error slot `errp`. -/
def ascend (pairs : List (Key × Value)) (beg e : Key) :
    List (Key × Value) × Option KVErr :=
  if e < beg ∧ e ≠ [] then ([], some .invalid)
  else (ascendLoop e (if beg ≠ [] then seekGE beg pairs else pairs), none)

/-- Reverse seek of the engine cursor (`it.Seek` with a reverse iterator):
position at the first entry whose key is not above the target, on the
descending listing. -/
def seekLE (e : Key) : List (Key × Value) → List (Key × Value)
  | [] => []
  | p :: ps => if e < p.1 then seekLE e ps else p :: ps

/-- The yield loop of txn.Descend: skip an entry equal to the upper bound,
stop strictly below the non-empty lower bound, emit the rest. -/
def descendLoop (beg e : Key) : List (Key × Value) → List (Key × Value)
  | [] => []
  | p :: ps =>
    if e ≠ [] ∧ p.1 = e then descendLoop beg e ps
    else if beg ≠ [] ∧ p.1 < beg then []
    else p :: descendLoop beg e ps

/-- txn.Descend from badger.go, over the reverse cursor (the descending
listing `pairs.reverse` of the active handle's visible entries): bound
validation, optional reverse seek to `e`, then the yield loop with its
equal-to-end skip. -/
def descend (pairs : List (Key × Value)) (beg e : Key) :
    List (Key × Value) × Option KVErr :=
  if e < beg ∧ e ≠ [] then ([], some .invalid)
  else (descendLoop beg e (if e ≠ [] then seekLE e pairs.reverse else pairs.reverse),
        none)

/-- Membership in the half-open range `[beg, e)`, the empty key standing
for "no bound" on either side. -/
def inRange (beg e k : Key) : Prop := beg ≤ k ∧ (e = [] ∨ k < e)

instance (beg e k : Key) : Decidable (inRange beg e k) := by
  unfold inRange; infer_instance

/-- The cursor listing is strictly ascending in key order. -/
abbrev AscSorted (pairs : List (Key × Value)) : Prop :=
  List.Pairwise (fun p q => p.1 < q.1) pairs

/-- A listing that is strictly descending in key order. -/
abbrev DescSorted (pairs : List (Key × Value)) : Prop :=
  List.Pairwise (fun p q => q.1 < p.1) pairs

/-- The spec's running example: keys a, b, c, d, e with distinct values. -/
def abcde : List (Key × Value) :=
  [([97], [0]), ([98], [1]), ([99], [2]), ([100], [3]), ([101], [4])]

/-- A handle that has already been finished: done sentinel set, engine
transaction discarded (as txn.Commit and txn.discard leave it). -/
def doneTxn : Txn := ⟨true, ⟨[([1], [7])], [], true, true, 0, 1⟩⟩

/-- A fresh active read-write handle over a one-entry store. -/
def freshTxn : Txn := (newTransaction [([1], [7])]).toTxn

/-- A fresh active snapshot over a one-entry store. -/
def freshSnap : Snapshot := newSnapshot [([1], [7])]

theorem decide_and_eq (p q : Prop) [Decidable p] [Decidable q] :
    (decide p && decide q) = decide (p ∧ q) := by
  by_cases hp : p <;> by_cases hq : q <;> simp [hp, hq]

theorem seekGE_eq_filter (beg : Key) (pairs : List (Key × Value))
    (h : AscSorted pairs) :
    seekGE beg pairs = pairs.filter (fun p => decide (beg ≤ p.1)) := by
  induction pairs with
  | nil => rfl
  | cons p ps ih =>
    rcases List.pairwise_cons.mp h with ⟨hp, hps⟩
    by_cases hlt : p.1 < beg
    · rw [seekGE, if_pos hlt, List.filter_cons_of_neg (by simpa using not_le.mpr hlt)]
      exact ih hps
    · rw [seekGE, if_neg hlt, List.filter_cons_of_pos (by simpa using not_lt.mp hlt),
        List.filter_eq_self.mpr]
      intro q hq
      simpa using le_trans (not_lt.mp hlt) (le_of_lt (hp q hq))

theorem ascendLoop_eq_filter (e : Key) (pairs : List (Key × Value))
    (h : AscSorted pairs) :
    ascendLoop e pairs = pairs.filter (fun p => decide (e = [] ∨ p.1 < e)) := by
  induction pairs with
  | nil => rfl
  | cons p ps ih =>
    rcases List.pairwise_cons.mp h with ⟨hp, hps⟩
    by_cases hstop : e ≠ [] ∧ e ≤ p.1
    · rw [ascendLoop, if_pos hstop]
      symm
      rw [List.filter_eq_nil_iff]
      intro q hq
      rcases List.mem_cons.mp hq with rfl | hq2
      · simp [hstop.1, not_lt.mpr hstop.2]
      · simp [hstop.1, not_lt.mpr (le_trans hstop.2 (le_of_lt (hp q hq2)))]
    · have hpos : (e = [] ∨ p.1 < e) := by
        rcases not_and_or.mp hstop with h1 | h2
        · exact Or.inl (not_not.mp h1)
        · exact Or.inr (not_le.mp h2)
      rw [ascendLoop, if_neg hstop, List.filter_cons_of_pos (by simpa using hpos),
        ih hps]

theorem seekLE_eq_filter (e : Key) (pairs : List (Key × Value))
    (h : DescSorted pairs) :
    seekLE e pairs = pairs.filter (fun p => decide (p.1 ≤ e)) := by
  induction pairs with
  | nil => rfl
  | cons p ps ih =>
    rcases List.pairwise_cons.mp h with ⟨hp, hps⟩
    by_cases hlt : e < p.1
    · rw [seekLE, if_pos hlt, List.filter_cons_of_neg (by simpa using not_le.mpr hlt)]
      exact ih hps
    · rw [seekLE, if_neg hlt, List.filter_cons_of_pos (by simpa using not_lt.mp hlt),
        List.filter_eq_self.mpr]
      intro q hq
      simpa using le_trans (le_of_lt (hp q hq)) (not_lt.mp hlt)

theorem descendLoop_eq_filter (beg e : Key) (pairs : List (Key × Value))
    (h : DescSorted pairs) :
    descendLoop beg e pairs
      = pairs.filter (fun p => decide ((e = [] ∨ p.1 ≠ e) ∧ (beg = [] ∨ beg ≤ p.1))) := by
  induction pairs with
  | nil => rfl
  | cons p ps ih =>
    rcases List.pairwise_cons.mp h with ⟨hp, hps⟩
    by_cases hskip : e ≠ [] ∧ p.1 = e
    · rw [descendLoop, if_pos hskip,
        List.filter_cons_of_neg (by simp [hskip.1, hskip.2]), ih hps]
    · by_cases hstop : beg ≠ [] ∧ p.1 < beg
      · rw [descendLoop, if_neg hskip, if_pos hstop]
        symm
        rw [List.filter_eq_nil_iff]
        intro q hq
        rcases List.mem_cons.mp hq with rfl | hq2
        · simp [hstop.1, not_le.mpr hstop.2]
        · simp [hstop.1, not_le.mpr (lt_trans (hp q hq2) hstop.2)]
      · have h1 : e = [] ∨ p.1 ≠ e := by
          rcases not_and_or.mp hskip with h1 | h2
          · exact Or.inl (not_not.mp h1)
          · exact Or.inr h2
        have h2 : beg = [] ∨ beg ≤ p.1 := by
          rcases not_and_or.mp hstop with h1 | h2
          · exact Or.inl (not_not.mp h1)
          · exact Or.inr (not_lt.mp h2)
        rw [descendLoop, if_neg hskip, if_neg hstop,
          List.filter_cons_of_pos (by simp [h1, h2]), ih hps]

/-- C4: on an active handle whose visible entries form the strictly
ascending cursor listing `pairs`, Ascend(beg, e) yields exactly the entries
whose keys lie in the half-open range `[beg, e)` (empty bounds meaning
unbounded), in strictly increasing key order: a non-empty `beg` makes the
cursor seek to the first key not below `beg`, otherwise iteration starts at
the smallest key, and iteration stops at the first key reaching a non-empty
`e`. -/
theorem c4_ascend_yields_range (pairs : List (Key × Value)) (beg e : Key)
    (hs : AscSorted pairs) :
    (ascend pairs beg e).1 = pairs.filter (fun p => decide (inRange beg e p.1)) ∧
    AscSorted (ascend pairs beg e).1 := by
  have hmain : (ascend pairs beg e).1
      = pairs.filter (fun p => decide (inRange beg e p.1)) := by
    unfold ascend
    by_cases hinv : e < beg ∧ e ≠ []
    · rw [if_pos hinv]
      symm
      rw [List.filter_eq_nil_iff]
      intro q hq
      simp only [decide_eq_true_eq, inRange]
      rintro ⟨hbq, (rfl | hqe)⟩
      · exact hinv.2 rfl
      · exact absurd (lt_of_lt_of_le (lt_trans hqe hinv.1) hbq) (lt_irrefl _)
    · rw [if_neg hinv]
      by_cases hb : beg ≠ []
      · have h1 := seekGE_eq_filter beg pairs hs
        have hsort2 : AscSorted (seekGE beg pairs) := by
          rw [h1]; exact hs.filter _
        show ascendLoop e (if beg ≠ [] then seekGE beg pairs else pairs) = _
        rw [if_pos hb, ascendLoop_eq_filter e _ hsort2, h1, List.filter_filter]
        apply List.filter_congr
        intro x _
        show (decide (e = [] ∨ x.1 < e) && decide (beg ≤ x.1))
            = decide (inRange beg e x.1)
        rw [decide_and_eq, decide_eq_decide]
        unfold inRange
        constructor
        · rintro ⟨h2, h3⟩; exact ⟨h3, h2⟩
        · rintro ⟨h2, h3⟩; exact ⟨h3, h2⟩
      · show ascendLoop e (if beg ≠ [] then seekGE beg pairs else pairs) = _
        rw [if_neg hb, ascendLoop_eq_filter e _ hs]
        apply List.filter_congr
        intro x _
        rw [decide_eq_decide]
        unfold inRange
        constructor
        · intro h2; exact ⟨not_not.mp hb ▸ List.nil_le, h2⟩
        · rintro ⟨_, h2⟩; exact h2
  refine ⟨hmain, ?_⟩
  rw [hmain]
  exact hs.filter _

/-- C3: on an active handle whose visible entries form the strictly
ascending cursor listing `pairs`, Descend(beg, e) yields exactly the
entries whose keys lie in the half-open range `[beg, e)` (empty bounds
meaning unbounded), in strictly decreasing key order: a non-empty `e` makes
the reverse cursor seek to `e` and the loop skip an entry whose key equals
`e` before yielding, otherwise iteration starts at the largest key, and
iteration stops as soon as a key drops below a non-empty `beg`. -/
theorem c3_descend_yields_range (pairs : List (Key × Value)) (beg e : Key)
    (hs : AscSorted pairs) :
    (descend pairs beg e).1
      = (pairs.filter (fun p => decide (inRange beg e p.1))).reverse ∧
    DescSorted (descend pairs beg e).1 := by
  have hrev : DescSorted pairs.reverse := List.pairwise_reverse.mpr hs
  have hmain : (descend pairs beg e).1
      = (pairs.filter (fun p => decide (inRange beg e p.1))).reverse := by
    unfold descend
    by_cases hinv : e < beg ∧ e ≠ []
    · rw [if_pos hinv]
      symm
      simp only [List.reverse_eq_nil_iff]
      rw [List.filter_eq_nil_iff]
      intro q hq
      simp only [decide_eq_true_eq, inRange]
      rintro ⟨hbq, (rfl | hqe)⟩
      · exact hinv.2 rfl
      · exact absurd (lt_of_lt_of_le (lt_trans hqe hinv.1) hbq) (lt_irrefl _)
    · rw [if_neg hinv]
      by_cases he : e ≠ []
      · have h1 := seekLE_eq_filter e pairs.reverse hrev
        have hsort2 : DescSorted (seekLE e pairs.reverse) := by
          rw [h1]; exact hrev.filter _
        show descendLoop beg e (if e ≠ [] then seekLE e pairs.reverse else _) = _
        rw [if_pos he, descendLoop_eq_filter beg e _ hsort2, h1, List.filter_filter,
          List.filter_reverse]
        congr 1
        apply List.filter_congr
        intro x _
        show (decide ((e = [] ∨ x.1 ≠ e) ∧ (beg = [] ∨ beg ≤ x.1)) && decide (x.1 ≤ e))
            = decide (inRange beg e x.1)
        rw [decide_and_eq, decide_eq_decide]
        unfold inRange
        constructor
        · rintro ⟨⟨h1x, h2x⟩, h3x⟩
          refine ⟨?_, ?_⟩
          · rcases h2x with rfl | h2x
            · exact List.nil_le
            · exact h2x
          · rcases h1x with rfl | h1x
            · exact absurd rfl he
            · exact Or.inr (lt_of_le_of_ne h3x h1x)
        · rintro ⟨h1x, (rfl | h2x)⟩
          · exact absurd rfl he
          · exact ⟨⟨Or.inr (ne_of_lt h2x), Or.inr h1x⟩, le_of_lt h2x⟩
      · show descendLoop beg e (if e ≠ [] then seekLE e pairs.reverse else pairs.reverse) = _
        rw [if_neg he, descendLoop_eq_filter beg e _ hrev, List.filter_reverse]
        congr 1
        apply List.filter_congr
        intro x _
        rw [decide_eq_decide]
        unfold inRange
        constructor
        · rintro ⟨_, h2x⟩
          refine ⟨?_, Or.inl (not_not.mp he)⟩
          rcases h2x with rfl | h2x
          · exact List.nil_le
          · exact h2x
        · rintro ⟨h1x, _⟩
          exact ⟨Or.inl (not_not.mp he), Or.inr h1x⟩
  refine ⟨hmain, ?_⟩
  rw [hmain]
  exact List.pairwise_reverse.mpr ((hs.filter _).imp fun h => h)

/-- C5: for both Ascend and Descend, non-empty bounds with `beg` above `e`
in byte-lexicographic order fail immediately with the InvalidArgument error
in the out-of-band slot, and the sequence yields no pairs. -/
theorem c5_bounds_invalid (pairs : List (Key × Value)) (beg e : Key)
    (hb : beg ≠ []) (he : e ≠ []) (hlt : e < beg) :
    ascend pairs beg e = ([], some .invalid) ∧
    descend pairs beg e = ([], some .invalid) := by
  constructor
  · unfold ascend; rw [if_pos ⟨hlt, he⟩]
  · unfold descend; rw [if_pos ⟨hlt, he⟩]

/-- Witness for C4 at the spec's example: Ascend("b","d") over keys
a..e yields exactly the b and c entries, in ascending order. -/
theorem c4_ascend_yields_range_witness :
    (ascend abcde [98] [100]).1 = [([98], [1]), ([99], [2])] ∧
    AscSorted (ascend abcde [98] [100]).1 :=
  have h := c4_ascend_yields_range abcde [98] [100] (by decide)
  ⟨h.1.trans (by decide), h.2⟩

/-- Witness for C3 at the spec's example: Descend("b","d") over keys
a..e yields exactly the c and b entries, in descending order. -/
theorem c3_descend_yields_range_witness :
    (descend abcde [98] [100]).1 = [([99], [2]), ([98], [1])] ∧
    DescSorted (descend abcde [98] [100]).1 :=
  have h := c3_descend_yields_range abcde [98] [100] (by decide)
  ⟨h.1.trans (by decide), h.2⟩

/-- Witness for C5: bounds ("b","a") are both non-empty and inverted, so
both Ascend and Descend fail InvalidArgument and yield nothing. -/
theorem c5_bounds_invalid_witness :
    ascend abcde [98] [97] = ([], some .invalid) ∧
    descend abcde [98] [97] = ([], some .invalid) :=
  c5_bounds_invalid abcde [98] [97] (by decide) (by decide) (by decide)

/-- C6: Commit and Rollback are mutually exclusive and fire at most once:
on an active handle either finalizer marks the handle done with exactly one
engine commit or discard effect, and any further Commit or Rollback returns
the Done error and leaves the handle (and the engine transaction) exactly
unchanged. -/
theorem c6_commit_rollback_once (t : Txn)
    (hdone : t.done = false) (hdisc : t.tx.discarded = false) :
    ((txnCommit t).2.done = true ∧ (txnRollback t).2.done = true) ∧
    (txnCommit (txnCommit t).2 = (.error .txDone, (txnCommit t).2) ∧
     txnRollback (txnCommit t).2 = (.error .txDone, (txnCommit t).2) ∧
     txnCommit (txnRollback t).2 = (.error .txDone, (txnRollback t).2) ∧
     txnRollback (txnRollback t).2 = (.error .txDone, (txnRollback t).2)) ∧
    ((txnCommit t).2.tx.commitCount = t.tx.commitCount + 1 ∧
     (txnCommit t).2.tx.discardCount = t.tx.discardCount ∧
     (txnRollback t).2.tx.discardCount = t.tx.discardCount + 1 ∧
     (txnRollback t).2.tx.commitCount = t.tx.commitCount) := by
  simp [txnCommit, txnRollback, engineCommit, engineDiscard, hdone, hdisc]

/-- Witness for C6 on a fresh active handle. -/
theorem c6_commit_rollback_once_witness :
    txnCommit (txnCommit freshTxn).2 = (.error .txDone, (txnCommit freshTxn).2) ∧
    txnRollback (txnCommit freshTxn).2 = (.error .txDone, (txnCommit freshTxn).2) :=
  have h := c6_commit_rollback_once freshTxn rfl rfl
  ⟨h.2.1.1, h.2.1.2.1⟩

/-- C8: on an active handle with a live engine transaction and a non-empty
key, Get fails NotFound exactly when no value for the key is visible, and
Delete fails NotFound exactly when the engine itself reports the key
absent; every other engine error is passed through unchanged by the shared
not-found mapping. -/
theorem c8_notfound_iff_invisible (t : Txn) (k : Key)
    (hdone : t.done = false) (hdisc : t.tx.discarded = false) (hk : k ≠ []) :
    (txnGet t k = .error .notExist ↔ visibleKV t.tx k = none) ∧
    (txnDelete t k = .error .notExist ↔ engineDelete t.tx k = .error .keyNotFound) ∧
    (∀ e : EngErr, e ≠ .keyNotFound → mapNotFound e = .engine e) := by
  refine ⟨?_, ?_, ?_⟩
  · unfold txnGet engineGet
    rw [if_neg hk, if_neg (by simp [hdisc])]
    cases h : visibleKV t.tx k <;> simp [h, mapNotFound]
  · unfold txnDelete
    rw [if_neg (by simp [hdone])]
    cases h : engineDelete t.tx k with
    | ok tx2 => simp
    | error e =>
      cases e <;> simp [mapNotFound]
  · intro e he
    cases e <;> simp [mapNotFound] <;> simp at he

/-- Witness for C8 on a fresh handle: the stored key is visible (no
NotFound), an absent key gives NotFound. -/
theorem c8_notfound_iff_invisible_witness :
    (txnGet freshTxn [2] = .error .notExist ↔ visibleKV freshTxn.tx [2] = none) ∧
    (txnGet freshTxn [1] = .error .notExist ↔ visibleKV freshTxn.tx [1] = none) :=
  ⟨(c8_notfound_iff_invisible freshTxn [2] rfl rfl (by decide)).1,
   (c8_notfound_iff_invisible freshTxn [1] rfl rfl (by decide)).1⟩

/-- C9: on an active read-write Transaction, Set of any value (including
the zero-length one) under a non-empty key succeeds, and a Get of the same
key on the resulting handle returns exactly that value. -/
theorem c9_set_get_roundtrip (t : Txn) (k : Key) (v : Value)
    (hdone : t.done = false) (hupd : t.tx.update = true)
    (hdisc : t.tx.discarded = false) (hk : k ≠ []) :
    ∃ t2 : Txn, txnSet t k (some v) = .ok t2 ∧ txnGet t2 k = .ok v := by
  refine ⟨{ t with tx := { t.tx with pending := (k, some v) :: t.tx.pending } }, ?_, ?_⟩
  · unfold txnSet readAll engineSet
    rw [if_neg (by simp [hdone])]
    simp [hupd, hdisc, hk]
  · unfold txnGet engineGet visibleKV alookup
    simp [hupd, hdisc, hk]

/-- Witness for C9: a zero-length value round-trips under key 2 on the
fresh handle. -/
theorem c9_set_get_roundtrip_witness :
    ∃ t2 : Txn, txnSet freshTxn [2] (some []) = .ok t2 ∧ txnGet t2 [2] = .ok [] :=
  c9_set_get_roundtrip freshTxn [2] [] rfl rfl rfl (by decide)

/-- Counterexample to C1: on a handle that is already done, Get is not
guarded by this layer and surfaces the engine's discarded-transaction
error, which is not the Done (`sql.ErrTxDone`) error. -/
theorem c1_done_get_not_txDone :
    txnGet doneTxn [1] = .error (.engine .discardedTxn) ∧
    txnGet doneTxn [1] ≠ .error .txDone := by
  decide

/-- C1 (amended): on a done handle, Set and Delete fail with the Done
error, and further Commit/Rollback calls report Done without touching the
handle; Get carries no done-check at this layer and instead surfaces the
engine's discarded-transaction error. -/
theorem c1_done_handle_behavior (t : Txn) (k : Key) (v : Option Value)
    (h : t.done = true) :
    txnSet t k v = .err .txDone ∧
    txnDelete t k = .error .txDone ∧
    txnCommit t = (.error .txDone, t) ∧
    txnRollback t = (.error .txDone, t) ∧
    (t.tx.discarded = true → k ≠ [] → txnGet t k = .error (.engine .discardedTxn)) := by
  refine ⟨?_, ?_, ?_, ?_, ?_⟩
  · unfold txnSet; rw [if_pos h]
  · unfold txnDelete; rw [if_pos h]
  · unfold txnCommit; rw [if_pos h]
  · unfold txnRollback; rw [if_pos h]
  · intro hdisc hk
    unfold txnGet engineGet
    rw [if_neg hk, if_pos hdisc]
    rfl

/-- Witness for the amended C1 at the concrete done handle. -/
theorem c1_done_handle_behavior_witness :
    txnSet doneTxn [1] (some [2]) = .err .txDone ∧
    txnDelete doneTxn [1] = .error .txDone ∧
    txnGet doneTxn [1] = .error (.engine .discardedTxn) :=
  have h := c1_done_handle_behavior doneTxn [1] (some [2]) rfl
  ⟨h.1, h.2.1, h.2.2.2.2 rfl (by decide)⟩

/-- Counterexample to C2: Get with an empty key on a fresh active handle
surfaces the engine's empty-key error unchanged, not the InvalidArgument
(`os.ErrInvalid`) error. -/
theorem c2_empty_key_not_invalid :
    txnGet freshTxn [] = .error (.engine .emptyKey) ∧
    txnGet freshTxn [] ≠ .error .invalid := by
  decide

/-- C2 (amended): this layer performs no empty-key validation of its own;
on an active handle an empty key is forwarded to the engine, whose
empty-key error surfaces unchanged on Get, Set and Delete, and none of the
point operations ever fails with the InvalidArgument error at this layer. -/
theorem c2_empty_key_engine_error (t : Txn) (v : Value)
    (hdone : t.done = false) (hdisc : t.tx.discarded = false)
    (hupd : t.tx.update = true) :
    txnGet t [] = .error (.engine .emptyKey) ∧
    txnSet t [] (some v) = .err (.engine .emptyKey) ∧
    txnDelete t [] = .error (.engine .emptyKey) ∧
    (∀ k : Key, txnGet t k ≠ .error .invalid) ∧
    (∀ (k : Key) (w : Option Value), txnSet t k w ≠ .err .invalid) ∧
    (∀ k : Key, txnDelete t k ≠ .error .invalid) := by
  have hmap : ∀ e : EngErr, mapNotFound e ≠ .invalid := by
    intro e; cases e <;> simp [mapNotFound]
  refine ⟨?_, ?_, ?_, ?_, ?_, ?_⟩
  · unfold txnGet engineGet; rw [if_pos rfl]; rfl
  · unfold txnSet readAll engineSet
    rw [if_neg (by simp [hdone])]
    simp [hupd, hdisc]
  · unfold txnDelete engineDelete
    rw [if_neg (by simp [hdone])]
    simp [hupd, hdisc, mapNotFound]
  · intro k
    unfold txnGet
    cases h : engineGet t.tx k <;> simp [hmap]
  · intro k w
    unfold txnSet
    rw [if_neg (by simp [hdone])]
    cases w with
    | none => simp [readAll]
    | some data =>
      cases h : engineSet t.tx k data <;> simp [readAll, h]
  · intro k
    unfold txnDelete
    rw [if_neg (by simp [hdone])]
    cases h : engineDelete t.tx k <;> simp [h, hmap]

/-- Witness for the amended C2 at the fresh handle. -/
theorem c2_empty_key_engine_error_witness :
    txnGet freshTxn [] = .error (.engine .emptyKey) ∧
    txnSet freshTxn [] (some [5]) = .err (.engine .emptyKey) ∧
    txnDelete freshTxn [] = .error (.engine .emptyKey) :=
  have h := c2_empty_key_engine_error freshTxn [5] rfl rfl rfl
  ⟨h.1, h.2.1, h.2.2.1⟩

/-- Counterexample to C7: Set with an absent (nil) value stream on a fresh
active Transaction crashes inside io.ReadAll instead of failing with the
InvalidArgument error. -/
theorem c7_nil_value_not_invalid :
    txnSet freshTxn [1] none = .crash ∧
    txnSet freshTxn [1] none ≠ .err .invalid := by
  decide

/-- C7 (amended): this layer performs no nil-value validation: Set with an
absent (nil) value stream crashes in io.ReadAll on any active handle,
while a zero-length (non-nil) value stream is accepted and round-trips. -/
theorem c7_set_nil_crashes_empty_ok (t : Txn) (k : Key)
    (hdone : t.done = false) (hupd : t.tx.update = true)
    (hdisc : t.tx.discarded = false) (hk : k ≠ []) :
    txnSet t k none = .crash ∧
    ∃ t2 : Txn, txnSet t k (some []) = .ok t2 ∧ txnGet t2 k = .ok [] := by
  constructor
  · unfold txnSet readAll
    rw [if_neg (by simp [hdone])]
  · refine ⟨{ t with tx := { t.tx with pending := (k, some []) :: t.tx.pending } }, ?_, ?_⟩
    · unfold txnSet readAll engineSet
      rw [if_neg (by simp [hdone])]
      simp [hupd, hdisc, hk]
    · unfold txnGet engineGet visibleKV alookup
      simp [hupd, hdisc, hk]

/-- Witness for the amended C7 at the fresh handle. -/
theorem c7_set_nil_crashes_empty_ok_witness :
    txnSet freshTxn [2] none = .crash ∧
    ∃ t2 : Txn, txnSet freshTxn [2] (some []) = .ok t2 ∧ txnGet t2 [2] = .ok [] :=
  c7_set_nil_crashes_empty_ok freshTxn [2] rfl rfl rfl (by decide)

/-- C10: Snapshot promotes the mutating operations of the shared inner txn
unchanged (Go struct embedding), and this layer adds no read-only check:
Set, Delete and Commit on a snapshot are the very txn functions used by a
read-write Transaction, and a rejected mutation on an active snapshot is
exactly the engine's read-only error passed through. -/
theorem c10_snapshot_mutation_forwarded (s : Snapshot) (k : Key) (v : Value)
    (hdone : s.toTxn.done = false) (hupd : s.toTxn.tx.update = false)
    (hdisc : s.toTxn.tx.discarded = false) :
    (snapSet s k (some v) = txnSet s.toTxn k (some v) ∧
     snapDelete s k = txnDelete s.toTxn k ∧
     snapCommit s = txnCommit s.toTxn) ∧
    (snapSet s k (some v) = .err (.engine .readOnlyTxn) ∧
     snapDelete s k = .error (.engine .readOnlyTxn)) ∧
    (engineSet s.toTxn.tx k v = .error .readOnlyTxn ∧
     engineDelete s.toTxn.tx k = .error .readOnlyTxn) := by
  refine ⟨⟨rfl, rfl, rfl⟩, ⟨?_, ?_⟩, ⟨?_, ?_⟩⟩
  · unfold snapSet txnSet readAll engineSet
    rw [if_neg (by simp [hdone])]
    simp [hupd]
  · unfold snapDelete txnDelete engineDelete
    rw [if_neg (by simp [hdone])]
    simp [hupd, mapNotFound]
  · unfold engineSet; rw [if_pos (by simp [hupd])]
  · unfold engineDelete; rw [if_pos (by simp [hupd])]

/-- Witness for C10 at a fresh snapshot. -/
theorem c10_snapshot_mutation_forwarded_witness :
    snapSet freshSnap [1] (some [9]) = .err (.engine .readOnlyTxn) ∧
    snapDelete freshSnap [1] = .error (.engine .readOnlyTxn) :=
  have h := c10_snapshot_mutation_forwarded freshSnap [1] [9] rfl rfl rfl
  ⟨h.2.1.1, h.2.1.2⟩

end Kvbadger
